import Mathlib

/-!
Verification of the pyscrai event-bus core and the extraction stage.

This development shallowly embeds the code of
`src/forge/shared/core/event_bus.py` (class `EventBus`) and
`src/forge/shared/domain/ingestion/extraction/service.py`
(class `DocumentExtractionService`).

Modelling choices, faithful to the source:
* A handler is keyed by identity; we model identities as `Nat` handler ids.
  The subscriber registry (`self._subscribers`, a `defaultdict(list)`)
  becomes a total function `String → List Nat` with `[]` as the default.
* The body of a handler is a deep-embedded list of effects (incrementing a
  counter, recording the payload, publishing a further event, raising an
  exception); an environment `HandlerEnv` maps a handler id and the payload
  it receives to the effect list its coroutine performs when awaited.
* `asyncio.create_task` schedules a task; scheduled-but-not-yet-run tasks
  form the bus's pending set (`self._pending_tasks`), here an ordered list.
  Running a task executes its handler's effects inside `_safe_dispatch`
  (exceptions caught) and then the done-callback removes it from pending;
  `gatherAll` models one `asyncio.gather(*pending)` round: it runs every
  currently pending task to completion, tasks spawned meanwhile being left
  pending for the next round, exactly the guarantee `gather` gives.
* Wall-clock timeout in `wait_until_idle` is modelled by the number of
  polling rounds (`polls`) the timeout allows before the
  `elapsed > timeout` check fires.
-/

/-- A Python-style heterogeneous value (payload entries, LLM JSON output). -/
inductive Val where
  | str : String → Val
  | int : Int → Val
  | bool : Bool → Val
  | none : Val
  | list : List Val → Val
  | map : List (String × Val) → Val

/-- An event payload: a string-keyed map (`EventPayload` in the source). -/
def EventPayload := List (String × Val)

/-- First-match lookup in a string-keyed map, as Python `dict` access
(Python dicts have unique keys, so first match is the match). -/
def lookupKey (kvs : List (String × Val)) (k : String) : Option Val :=
  match kvs with
  | [] => Option.none
  | (k', v) :: rest => if k' = k then some v else lookupKey rest k

/-- One step a handler coroutine can take when awaited. -/
inductive Effect where
  | incr : Nat → Effect
  | record : Effect
  | publishE : String → EventPayload → Effect
  | raiseExc : Effect

/-- The behaviour environment: handler id and received payload to the
effect list the handler performs. -/
def HandlerEnv := Nat → EventPayload → List Effect

/-- A scheduled handler invocation, one entry of the pending-task set:
the topic it was dispatched for, the handler id, and the payload. -/
structure BusTask where
  topic : String
  hid : Nat
  payload : EventPayload

/-- The bus state plus the observable world the handler effects touch:
`subscribers` and `pending` are `EventBus._subscribers` and
`EventBus._pending_tasks`; `completed` logs each handler invocation that
ran to completion (success or caught failure), in order; `counters` and
`recorded` are the test-visible side effects handlers can perform. -/
structure SysState where
  subscribers : String → List Nat
  pending : List BusTask
  completed : List (String × Nat)
  counters : Nat → Nat
  recorded : List EventPayload

namespace EventBus

/-- `EventBus.subscribe`: append the handler to the topic's list unless an
equal handler is already registered (`if handler not in ...: append`). -/
def subscribe (topic : String) (h : Nat) (s : SysState) : SysState :=
  if h ∈ s.subscribers topic then s
  else { s with subscribers :=
          fun t => if t = topic then s.subscribers topic ++ [h] else s.subscribers t }

/-- `EventBus.unsubscribe`: remove the first occurrence of the handler if
present (`if handler in ...: remove`); no-op otherwise. -/
def unsubscribe (topic : String) (h : Nat) (s : SysState) : SysState :=
  if h ∈ s.subscribers topic then
    { s with subscribers :=
        fun t => if t = topic then (s.subscribers topic).erase h else s.subscribers t }
  else s

/-- `EventBus.publish`: snapshot the topic's subscriber list; if empty, log
and return; else schedule one `_safe_dispatch` task per handler, adding
each to the pending set. The publisher does not await completion. -/
def publish (topic : String) (payload : EventPayload) (s : SysState) : SysState :=
  let handlers := s.subscribers topic
  if handlers.isEmpty then s
  else { s with pending := s.pending ++ handlers.map (fun h => ⟨topic, h, payload⟩) }

/-- `EventBus.clear`: drop all subscriptions; pending tasks are untouched. -/
def clear (s : SysState) : SysState :=
  { s with subscribers := fun _ => [] }

end EventBus

/-- Run a handler's effect list: effects before a `raiseExc` take place, the
raise aborts the rest; the returned flag says whether an exception was
raised. A `publishE` effect re-enters `EventBus.publish` and so appends new
tasks to the pending set. -/
def execEffects (effs : List Effect) (received : EventPayload) (s : SysState) :
    SysState × Bool :=
  match effs with
  | [] => (s, false)
  | Effect.raiseExc :: _ => (s, true)
  | Effect.incr c :: rest =>
      execEffects rest received
        { s with counters := fun c' => if c' = c then s.counters c + 1 else s.counters c' }
  | Effect.record :: rest =>
      execEffects rest received { s with recorded := s.recorded ++ [received] }
  | Effect.publishE t p :: rest =>
      execEffects rest received (EventBus.publish t p s)

/-- `EventBus._safe_dispatch`: await the handler on the payload; an
exception is caught and logged, never re-raised (the flag is dropped). -/
def safeDispatch (env : HandlerEnv) (t : BusTask) (s : SysState) : SysState :=
  (execEffects (env t.hid t.payload) t.payload s).1

/-- Run one scheduled task to completion: `_safe_dispatch` followed by the
done-callback bookkeeping; the completed invocation is logged. -/
def runTask (env : HandlerEnv) (t : BusTask) (s : SysState) : SysState :=
  let s' := safeDispatch env t s
  { s' with completed := s'.completed ++ [(t.topic, t.hid)] }

/-- One `await asyncio.gather(*list(self._pending_tasks), ...)` round: every
currently pending task runs to completion and is discarded from the pending
set; tasks they spawn stay pending for the next round. -/
def gatherAll (env : HandlerEnv) (s : SysState) : SysState :=
  (s.pending).foldl (fun acc t => runTask env t acc) { s with pending := [] }

/-- The polling loop of `EventBus.wait_until_idle`: at each round, if the
timeout has elapsed return `false`; otherwise gather the pending tasks and
re-check, because handlers may have published new events. -/
def waitLoop (env : HandlerEnv) : Nat → SysState → Bool × SysState
  | 0, s => (false, s)
  | n + 1, s =>
      let s' := gatherAll env s
      if s'.pending.isEmpty then (true, s') else waitLoop env n s'

/-- `EventBus.wait_until_idle`: immediately `true` when nothing is pending,
else poll until drained (`true`) or the timeout budget runs out (`false`). -/
def wait_until_idle (env : HandlerEnv) (polls : Nat) (s : SysState) : Bool × SysState :=
  if s.pending.isEmpty then (true, s) else waitLoop env polls s

/-- `k` gather rounds from `s` (used to state when the bus drains). -/
def drainSteps (env : HandlerEnv) : Nat → SysState → SysState
  | 0, s => s
  | k + 1, s => drainSteps env k (gatherAll env s)

/-- A bus API call, for stating trace-level properties. -/
inductive BusOp where
  | sub : String → Nat → BusOp
  | unsub : String → Nat → BusOp
  | pub : String → EventPayload → BusOp
  | drain : BusOp

/-- Apply one API call to the state. -/
def applyOp (env : HandlerEnv) (op : BusOp) (s : SysState) : SysState :=
  match op with
  | BusOp.sub t h => EventBus.subscribe t h s
  | BusOp.unsub t h => EventBus.unsubscribe t h s
  | BusOp.pub t p => EventBus.publish t p s
  | BusOp.drain => gatherAll env s

/-- Apply a sequence of API calls left to right. -/
def applyOps (env : HandlerEnv) (ops : List BusOp) (s : SysState) : SysState :=
  ops.foldl (fun s op => applyOp env op s) s

/-! ## The extraction stage (`DocumentExtractionService`) -/

/-- Topic constant from `forge/shared/core/events.py`. -/
def TOPIC_DATA_INGESTED : String := "data.ingested"

/-- Topic constant from `forge/shared/core/events.py`. -/
def TOPIC_ENTITY_EXTRACTED : String := "entity.extracted"

/-- Python `str(v)`. Faithful on strings, integers, booleans and `None`;
the textual rendering of containers is abstracted (no claim depends on
it), only that it is some string matters. -/
def pyStr : Val → String
  | Val.str s => s
  | Val.int n => toString n
  | Val.bool b => if b then "True" else "False"
  | Val.none => "None"
  | Val.list _ => "<list>"
  | Val.map _ => "<dict>"

/-- Python `s.upper()`: upper-case every character. -/
def pyUpper (s : String) : String :=
  ⟨s.data.map Char.toUpper⟩

/-- Python `s.strip()`: drop leading and trailing whitespace characters. -/
def pyStrip (s : String) : String :=
  ⟨(((s.data.dropWhile Char.isWhitespace).reverse).dropWhile Char.isWhitespace).reverse⟩

/-- Modelled from the spec: the outcome of the three effectful helpers the
handler calls, whose code (`forge/shared/core/services.py` with
`BaseLLMService.ensure_llm_provider` and `call_llm_and_parse_json`, and the
Jinja `render_prompt`) is not part of the sources; per §6 the LLM
abstraction returns text parsed to a value or surfaces a typed error.
`providerAvailable` is `ensure_llm_provider`'s result; `renderResult` is
the rendered prompt or the exception `render_prompt` raised; `llmResult`
is the parsed LLM output or the exception the call raised. -/
structure LLMEnv where
  providerAvailable : Bool
  renderResult : Except String String
  llmResult : Except String Val

/-- The normalisation of one raw LLM entity, from the loop body of
`DocumentExtractionService._extract_entities`: keep only dict elements
having both a `"type"` and a `"text"` key; upper-case the type, strip the
text, and replace a missing or non-dict `"attributes"` value by `{}`. -/
def normalizeEntity (e : Val) : Option Val :=
  match e with
  | Val.map kvs =>
      match lookupKey kvs "type", lookupKey kvs "text" with
      | some ty, some tx =>
          let attributes :=
            match lookupKey kvs "attributes" with
            | some (Val.map m) => Val.map m
            | some _ => Val.map []
            | Option.none => Val.map []
          some (Val.map [("type", Val.str (pyUpper (pyStr ty))),
                         ("text", Val.str (pyStrip (pyStr tx))),
                         ("attributes", attributes)])
      | _, _ => Option.none
  | _ => Option.none

/-- The whole normalisation loop: elements that fail the shape check are
silently dropped, the rest are normalised in order. -/
def normalizeList (l : List Val) : List Val :=
  l.filterMap normalizeEntity

/-- `DocumentExtractionService._extract_entities`: empty list on every
failure path (no provider, prompt-rendering error, LLM exception, `None`
or non-list LLM output), otherwise the normalised entity list. The
`doc_id` and `content` arguments of the source only feed logging and the
abstracted helpers, so the outcome is a function of the helper results. -/
def extract_entities (env : LLMEnv) : List Val :=
  if env.providerAvailable = false then []
  else
    match env.renderResult with
    | Except.error _ => []
    | Except.ok _ =>
        match env.llmResult with
        | Except.error _ => []
        | Except.ok Val.none => []
        | Except.ok (Val.list l) => normalizeList l
        | Except.ok _ => []

/-- `DocumentExtractionService.handle_data_ingested` on a payload meeting
the documented `data.ingested` convention (`content` a string, `doc_id`
any value, defaulted to `"unknown"` by `payload.get` upstream): return the
single `entity.extracted` publish the handler performs, or `Option.none`
when it returns without publishing (blank content, or no usable
entities). The handler never raises: every helper failure is caught and
becomes the empty entity list. -/
def handle_data_ingested (env : LLMEnv) (doc_id : Val) (content : String) :
    Option (String × EventPayload) :=
  if pyStrip content = "" then Option.none
  else
    let entities := extract_entities env
    if entities.isEmpty then Option.none
    else some (TOPIC_ENTITY_EXTRACTED,
               [("doc_id", doc_id), ("entities", Val.list entities)])

/-! ## Basic structural lemmas -/

/-- The effects a handler performs before its first raise (the executed
part of a raising handler's body). -/
def beforeRaise : List Effect → List Effect
  | [] => []
  | Effect.raiseExc :: _ => []
  | Effect.incr c :: rest => Effect.incr c :: beforeRaise rest
  | Effect.record :: rest => Effect.record :: beforeRaise rest
  | Effect.publishE t p :: rest => Effect.publishE t p :: beforeRaise rest

theorem publish_pending (topic : String) (p : EventPayload) (s : SysState) :
    (EventBus.publish topic p s).pending
      = s.pending ++ (s.subscribers topic).map (fun h => ⟨topic, h, p⟩) := by
  unfold EventBus.publish
  by_cases h : (s.subscribers topic).isEmpty
  · simp only [h, if_pos]
    simp [List.isEmpty_iff] at h
    simp [h]
  · simp [h]

theorem publish_subscribers (topic : String) (p : EventPayload) (s : SysState) :
    (EventBus.publish topic p s).subscribers = s.subscribers := by
  unfold EventBus.publish
  by_cases h : (s.subscribers topic).isEmpty <;> simp [h]

theorem publish_completed (topic : String) (p : EventPayload) (s : SysState) :
    (EventBus.publish topic p s).completed = s.completed := by
  unfold EventBus.publish
  by_cases h : (s.subscribers topic).isEmpty <;> simp [h]

theorem publish_counters (topic : String) (p : EventPayload) (s : SysState) :
    (EventBus.publish topic p s).counters = s.counters := by
  unfold EventBus.publish
  by_cases h : (s.subscribers topic).isEmpty <;> simp [h]

theorem publish_recorded (topic : String) (p : EventPayload) (s : SysState) :
    (EventBus.publish topic p s).recorded = s.recorded := by
  unfold EventBus.publish
  by_cases h : (s.subscribers topic).isEmpty <;> simp [h]

theorem execEffects_subscribers (effs : List Effect) (r : EventPayload) (s : SysState) :
    ((execEffects effs r s).1).subscribers = s.subscribers := by
  induction effs generalizing s with
  | nil => rfl
  | cons e rest ih =>
      cases e with
      | incr c => simpa [execEffects] using ih _
      | record => simpa [execEffects] using ih _
      | publishE t p =>
          rw [execEffects, ih, publish_subscribers]
      | raiseExc => rfl

theorem execEffects_completed (effs : List Effect) (r : EventPayload) (s : SysState) :
    ((execEffects effs r s).1).completed = s.completed := by
  induction effs generalizing s with
  | nil => rfl
  | cons e rest ih =>
      cases e with
      | incr c => simpa [execEffects] using ih _
      | record => simpa [execEffects] using ih _
      | publishE t p =>
          rw [execEffects, ih, publish_completed]
      | raiseExc => rfl

theorem execEffects_pending_mono (effs : List Effect) (r : EventPayload) (s : SysState)
    (tk : BusTask) (h : tk ∈ s.pending) : tk ∈ ((execEffects effs r s).1).pending := by
  induction effs generalizing s with
  | nil => exact h
  | cons e rest ih =>
      cases e with
      | incr c => exact ih _ h
      | record => exact ih _ h
      | publishE t p =>
          refine ih _ ?_
          rw [publish_pending]
          exact List.mem_append_left _ h
      | raiseExc => exact h

theorem runTask_subscribers (env : HandlerEnv) (t : BusTask) (s : SysState) :
    (runTask env t s).subscribers = s.subscribers := by
  unfold runTask safeDispatch
  simp [execEffects_subscribers]

theorem runTask_completed (env : HandlerEnv) (t : BusTask) (s : SysState) :
    (runTask env t s).completed = s.completed ++ [(t.topic, t.hid)] := by
  unfold runTask safeDispatch
  simp [execEffects_completed]

theorem runTask_pending_mono (env : HandlerEnv) (t : BusTask) (s : SysState)
    (tk : BusTask) (h : tk ∈ s.pending) : tk ∈ (runTask env t s).pending := by
  unfold runTask safeDispatch
  simpa using execEffects_pending_mono _ _ _ _ h

/-- The generic fold that `gatherAll` performs over the snapshot. -/
def runTasks (env : HandlerEnv) (l : List BusTask) (s : SysState) : SysState :=
  l.foldl (fun acc t => runTask env t acc) s

theorem gatherAll_eq_runTasks (env : HandlerEnv) (s : SysState) :
    gatherAll env s = runTasks env s.pending { s with pending := [] } := rfl

theorem runTasks_subscribers (env : HandlerEnv) (l : List BusTask) (s : SysState) :
    (runTasks env l s).subscribers = s.subscribers := by
  induction l generalizing s with
  | nil => rfl
  | cons t rest ih =>
      show (runTasks env rest (runTask env t s)).subscribers = s.subscribers
      rw [ih, runTask_subscribers]

theorem runTasks_completed (env : HandlerEnv) (l : List BusTask) (s : SysState) :
    (runTasks env l s).completed = s.completed ++ l.map (fun tk => (tk.topic, tk.hid)) := by
  induction l generalizing s with
  | nil => simp [runTasks]
  | cons t rest ih =>
      show (runTasks env rest (runTask env t s)).completed = _
      rw [ih, runTask_completed]
      simp

theorem runTasks_pending_mono (env : HandlerEnv) (l : List BusTask) (s : SysState)
    (tk : BusTask) (h : tk ∈ s.pending) : tk ∈ (runTasks env l s).pending := by
  induction l generalizing s with
  | nil => exact h
  | cons t rest ih =>
      exact ih (runTask env t s) (runTask_pending_mono _ _ _ _ h)

theorem gatherAll_subscribers (env : HandlerEnv) (s : SysState) :
    (gatherAll env s).subscribers = s.subscribers := by
  rw [gatherAll_eq_runTasks, runTasks_subscribers]

theorem gatherAll_completed (env : HandlerEnv) (s : SysState) :
    (gatherAll env s).completed
      = s.completed ++ s.pending.map (fun tk => (tk.topic, tk.hid)) := by
  rw [gatherAll_eq_runTasks, runTasks_completed]

theorem gatherAll_mem_completed (env : HandlerEnv) (s : SysState)
    (tk : BusTask) (h : tk ∈ s.pending) :
    (tk.topic, tk.hid) ∈ (gatherAll env s).completed := by
  rw [gatherAll_completed]
  exact List.mem_append_right _ (List.mem_map_of_mem _ h)

theorem gatherAll_completed_mono (env : HandlerEnv) (s : SysState)
    (c : String × Nat) (h : c ∈ s.completed) : c ∈ (gatherAll env s).completed := by
  rw [gatherAll_completed]
  exact List.mem_append_left _ h

/-! ## Cascade and drain lemmas -/

theorem execEffects_cascade (t2 : String) (p2 : EventPayload) (b : Nat)
    (effs : List Effect) (r : EventPayload) (s : SysState)
    (hmem : Effect.publishE t2 p2 ∈ beforeRaise effs)
    (hb : b ∈ s.subscribers t2) :
    (⟨t2, b, p2⟩ : BusTask) ∈ ((execEffects effs r s).1).pending := by
  induction effs generalizing s with
  | nil => simp [beforeRaise] at hmem
  | cons e rest ih =>
      cases e with
      | raiseExc => simp [beforeRaise] at hmem
      | incr c =>
          simp only [beforeRaise, List.mem_cons] at hmem
          rcases hmem with h | h


          · exact absurd h (by simp)
          · exact ih _ h hb
      | record =>
          simp only [beforeRaise, List.mem_cons] at hmem
          rcases hmem with h | h
          · exact absurd h (by simp)
          · exact ih _ h hb
      | publishE t p =>
          simp only [beforeRaise, List.mem_cons] at hmem
          rcases hmem with h | h
          · have ht : t2 = t := by cases h; rfl
            have hp : p2 = p := by cases h; rfl
            subst ht; subst hp
            exact execEffects_pending_mono rest r (EventBus.publish t2 p2 s) _
              (by rw [publish_pending]
                  exact List.mem_append_right _ (List.mem_map_of_mem _ hb))
          · exact ih (EventBus.publish t p s) h
              (by rw [publish_subscribers]; exact hb)

theorem runTask_cascade (env : HandlerEnv) (t2 : String) (p2 : EventPayload) (b : Nat)
    (tA : BusTask) (s : SysState)
    (hmem : Effect.publishE t2 p2 ∈ beforeRaise (env tA.hid tA.payload))
    (hb : b ∈ s.subscribers t2) :
    (⟨t2, b, p2⟩ : BusTask) ∈ (runTask env tA s).pending := by
  unfold runTask safeDispatch
  simpa using execEffects_cascade t2 p2 b _ _ s hmem hb

theorem runTasks_cascade (env : HandlerEnv) (t2 : String) (p2 : EventPayload) (b : Nat)
    (tA : BusTask) (l : List BusTask) (s : SysState)
    (hA : tA ∈ l)
    (hmem : Effect.publishE t2 p2 ∈ beforeRaise (env tA.hid tA.payload))
    (hb : b ∈ s.subscribers t2) :
    (⟨t2, b, p2⟩ : BusTask) ∈ (runTasks env l s).pending := by
  induction l generalizing s with
  | nil => simp at hA
  | cons t rest ih =>
      show (⟨t2, b, p2⟩ : BusTask) ∈ (runTasks env rest (runTask env t s)).pending
      rcases List.mem_cons.mp hA with h | h
      · subst h
        exact runTasks_pending_mono _ _ _ _ (runTask_cascade env t2 p2 b tA s hmem hb)
      · exact ih (runTask env t s) h (by rw [runTask_subscribers]; exact hb)

theorem gatherAll_cascade (env : HandlerEnv) (t2 : String) (p2 : EventPayload) (b : Nat)
    (tA : BusTask) (s : SysState)
    (hA : tA ∈ s.pending)
    (hmem : Effect.publishE t2 p2 ∈ beforeRaise (env tA.hid tA.payload))
    (hb : b ∈ s.subscribers t2) :
    (⟨t2, b, p2⟩ : BusTask) ∈ (gatherAll env s).pending := by
  rw [gatherAll_eq_runTasks]
  exact runTasks_cascade env t2 p2 b tA s.pending _ hA hmem hb

/-- When the polling loop reports the bus drained, its final state has no
pending task, the completion log only grew, and every task that was
pending when the loop began ran to completion. -/
theorem waitLoop_true (env : HandlerEnv) (n : Nat) (s s' : SysState)
    (h : waitLoop env n s = (true, s')) :
    s'.pending = []
      ∧ (∀ c ∈ s.completed, c ∈ s'.completed)
      ∧ (∀ tk ∈ s.pending, (tk.topic, tk.hid) ∈ s'.completed) := by
  induction n generalizing s with
  | zero => simp [waitLoop] at h
  | succ n ih =>
      rw [waitLoop] at h
      by_cases hemp : (gatherAll env s).pending.isEmpty
      · simp only [hemp, if_pos] at h
        have hs' : s' = gatherAll env s := by cases h; rfl
        subst hs'
        refine ⟨by simpa [List.isEmpty_iff] using hemp, ?_, ?_⟩
        · exact fun c hc => gatherAll_completed_mono env s c hc
        · exact fun tk htk => gatherAll_mem_completed env s tk htk
      · simp only [hemp, if_neg, Bool.false_eq_true, not_false_iff, ite_false] at h
        obtain ⟨hp, hcmono, hpend⟩ := ih _ h
        refine ⟨hp, ?_, ?_⟩
        · exact fun c hc => hcmono c (gatherAll_completed_mono env s c hc)
        · exact fun tk htk => hcmono _ (gatherAll_mem_completed env s tk htk)

theorem waitLoop_drain_iff (env : HandlerEnv) (n : Nat) (s : SysState)
    (hne : s.pending ≠ []) :
    (waitLoop env n s).1 = true
      ↔ ∃ k, k ≤ n ∧ (drainSteps env k s).pending = [] := by
  induction n generalizing s with
  | zero =>
      simp only [waitLoop]
      constructor
      · intro h; exact absurd h (by simp)
      · rintro ⟨k, hk, hd⟩
        have hk0 : k = 0 := Nat.le_zero.mp hk
        subst hk0
        exact absurd hd hne
  | succ n ih =>
      rw [waitLoop]
      by_cases hemp : (gatherAll env s).pending.isEmpty = true
      · rw [if_pos hemp]
        constructor
        · intro _
          exact ⟨1, Nat.succ_le_succ (Nat.zero_le n),
                 by simpa [drainSteps, List.isEmpty_iff] using hemp⟩
        · intro _; rfl
      · rw [if_neg hemp]
        have hne' : (gatherAll env s).pending ≠ [] := by
          simpa [List.isEmpty_iff] using hemp
        rw [ih _ hne']
        constructor
        · rintro ⟨k, hk, hd⟩
          exact ⟨k + 1, Nat.succ_le_succ hk, by simpa [drainSteps] using hd⟩
        · rintro ⟨k, hk, hd⟩
          cases k with
          | zero => exact absurd (by simpa [drainSteps] using hd) hne
          | succ k =>
              exact ⟨k, Nat.le_of_succ_le_succ hk, by simpa [drainSteps] using hd⟩

theorem subscribe_pending (T : String) (h : Nat) (s : SysState) :
    (EventBus.subscribe T h s).pending = s.pending := by
  unfold EventBus.subscribe
  by_cases hmem : h ∈ s.subscribers T <;> simp [hmem]

/-! ## Claim theorems -/

/-- C1: fault isolation. With a handler `a` on topic `T` that always
raises and an independent handler `b` on `T` that increments counter `c`,
publishing to `T` and draining leaves the counter incremented by exactly
one, and both handlers ran to completion; publishing and draining are
total functions of the state, so no exception escapes the publish call. -/
theorem publish_fault_isolation (env : HandlerEnv) (s : SysState) (T : String)
    (p : EventPayload) (a b c : Nat)
    (hsubs : s.subscribers T = [a, b])
    (hpend : s.pending = [])
    (henva : env a p = [Effect.raiseExc])
    (henvb : env b p = [Effect.incr c]) :
    (gatherAll env (EventBus.publish T p s)).counters c = s.counters c + 1
      ∧ (T, a) ∈ (gatherAll env (EventBus.publish T p s)).completed
      ∧ (T, b) ∈ (gatherAll env (EventBus.publish T p s)).completed
      ∧ (gatherAll env (EventBus.publish T p s)).pending = [] := by
  have h1 : EventBus.publish T p s
      = { s with pending := [⟨T, a, p⟩, ⟨T, b, p⟩] } := by
    unfold EventBus.publish
    simp [hsubs, hpend]
  rw [h1]
  have h2 : gatherAll env { s with pending := [⟨T, a, p⟩, ⟨T, b, p⟩] }
      = runTask env ⟨T, b, p⟩ (runTask env ⟨T, a, p⟩ { s with pending := [] }) := rfl
  rw [h2]
  simp only [runTask, safeDispatch, henva, henvb, execEffects]
  simp

/-- C2: fan-out with snapshot isolation. A publish appends exactly one
task per handler in the topic's subscriber list as snapshotted at the
call, each task carrying the published payload; draining afterwards
completes exactly one invocation per snapshotted handler; the subscriber
registry is untouched, and a handler subscribed after the publish gets no
task for this event. -/
theorem publish_fanout_snapshot (env : HandlerEnv) (s : SysState) (T : String)
    (p : EventPayload) :
    (EventBus.publish T p s).pending
        = s.pending ++ (s.subscribers T).map (fun h => ⟨T, h, p⟩)
      ∧ (EventBus.publish T p s).pending.length
        = s.pending.length + (s.subscribers T).length
      ∧ (∀ tk ∈ (s.subscribers T).map (fun h => (⟨T, h, p⟩ : BusTask)),
          tk.payload = p ∧ tk.hid ∈ s.subscribers T)
      ∧ (EventBus.publish T p s).subscribers = s.subscribers
      ∧ (gatherAll env (EventBus.publish T p s)).completed
        = s.completed ++ s.pending.map (fun tk => (tk.topic, tk.hid))
            ++ (s.subscribers T).map (fun h => (T, h))
      ∧ (∀ h', (EventBus.subscribe T h' (EventBus.publish T p s)).pending
          = (EventBus.publish T p s).pending) := by
  refine ⟨publish_pending T p s, ?_, ?_, publish_subscribers T p s, ?_, ?_⟩
  · rw [publish_pending]; simp
  · intro tk htk
    rcases List.mem_map.mp htk with ⟨h, hh, rfl⟩
    exact ⟨rfl, hh⟩
  · rw [gatherAll_completed, publish_pending, publish_completed]
    simp
  · intro h'
    rw [subscribe_pending]

/-- C3: idle-barrier timeout semantics. `wait_until_idle` is a total
function returning a boolean: it returns `true` exactly when the
pending-task set drains within the caller's timeout budget of polling
rounds, and `false` exactly on timeout. -/
theorem wait_until_idle_timeout_spec (env : HandlerEnv) (polls : Nat) (s : SysState) :
    ((wait_until_idle env polls s).1 = true
        ↔ ∃ k, k ≤ polls ∧ (drainSteps env k s).pending = [])
      ∧ ((wait_until_idle env polls s).1 = false
        ↔ ¬ ∃ k, k ≤ polls ∧ (drainSteps env k s).pending = []) := by
  have h1 : (wait_until_idle env polls s).1 = true
      ↔ ∃ k, k ≤ polls ∧ (drainSteps env k s).pending = [] := by
    unfold wait_until_idle
    by_cases hemp : s.pending.isEmpty = true
    · rw [if_pos hemp]
      constructor
      · intro _
        exact ⟨0, Nat.zero_le _, by simpa [drainSteps, List.isEmpty_iff] using hemp⟩
      · intro _; rfl
    · rw [if_neg hemp]
      exact waitLoop_drain_iff env polls s (by simpa [List.isEmpty_iff] using hemp)
  refine ⟨h1, ?_⟩
  rw [← h1]
  cases hb : (wait_until_idle env polls s).1 <;> simp

/-- C4: idle-barrier cascade correctness. If handler `a` on topic `t1`
publishes to topic `t2` (before any raise in its body) and handler `b` is
subscribed to `t2`, then whenever `wait_until_idle` reports `true` after
publishing to `t1`, both the first handler and the cascaded second handler
have run to completion. -/
theorem wait_until_idle_cascade (env : HandlerEnv) (s : SysState)
    (t1 t2 : String) (a b : Nat) (p1 p2 : EventPayload)
    (ha : a ∈ s.subscribers t1) (hb : b ∈ s.subscribers t2)
    (hcasc : Effect.publishE t2 p2 ∈ beforeRaise (env a p1))
    (polls : Nat)
    (hrun : (wait_until_idle env polls (EventBus.publish t1 p1 s)).1 = true) :
    (t1, a) ∈ (wait_until_idle env polls (EventBus.publish t1 p1 s)).2.completed
      ∧ (t2, b) ∈ (wait_until_idle env polls (EventBus.publish t1 p1 s)).2.completed := by
  have hA : (⟨t1, a, p1⟩ : BusTask) ∈ (EventBus.publish t1 p1 s).pending := by
    rw [publish_pending]
    exact List.mem_append_right _ (List.mem_map_of_mem _ ha)
  have hne : ¬ (EventBus.publish t1 p1 s).pending.isEmpty = true := by
    simp only [List.isEmpty_iff]
    exact fun h => absurd (h ▸ hA) (List.not_mem_nil _)
  rw [wait_until_idle, if_neg hne] at hrun ⊢
  set s1 := EventBus.publish t1 p1 s with hs1
  have heq : waitLoop env polls s1 = (true, (waitLoop env polls s1).2) := by
    have : waitLoop env polls s1 = ((waitLoop env polls s1).1, (waitLoop env polls s1).2) := rfl
    rw [this, hrun]
  obtain ⟨hp', hmono, hpend⟩ := waitLoop_true env polls s1 _ heq
  refine ⟨hpend _ hA, ?_⟩
  cases polls with
  | zero => simp [waitLoop] at hrun
  | succ n =>
      have hBg : (⟨t2, b, p2⟩ : BusTask) ∈ (gatherAll env s1).pending := by
        refine gatherAll_cascade env t2 p2 b ⟨t1, a, p1⟩ s1 hA hcasc ?_
        rw [hs1, publish_subscribers]
        exact hb
      have hemp2 : ¬ (gatherAll env s1).pending.isEmpty = true := by
        simp only [List.isEmpty_iff]
        exact fun h => absurd (h ▸ hBg) (List.not_mem_nil _)
      rw [waitLoop, if_neg hemp2] at heq
      obtain ⟨_, _, hpend2⟩ := waitLoop_true env n (gatherAll env s1) _ heq
      have := hpend2 _ hBg
      rw [waitLoop, if_neg hemp2]
      exact this

/-- C7: publishing to a topic with zero subscribers is not an error: the
call returns with the state unchanged, in particular without adding any
pending task, and a subsequent `wait_until_idle` is unaffected. -/
theorem publish_no_subscribers (s : SysState) (T : String) (p : EventPayload)
    (h : s.subscribers T = []) :
    EventBus.publish T p s = s
      ∧ (EventBus.publish T p s).pending = s.pending
      ∧ ∀ env polls, wait_until_idle env polls (EventBus.publish T p s)
          = wait_until_idle env polls s := by
  have h1 : EventBus.publish T p s = s := by
    unfold EventBus.publish
    simp [h]
  exact ⟨h1, by rw [h1], fun env polls => by rw [h1]⟩

/-- C9: frame property of `clear`. Clearing drops every subscription
(afterwards any publish is a no-op until new subscriptions are made) and
leaves the pending-task set, the completion log and the handler-visible
side effects unchanged; tasks already in flight still run to completion
when drained. -/
theorem clear_frame (s : SysState) :
    (EventBus.clear s).pending = s.pending
      ∧ (EventBus.clear s).completed = s.completed
      ∧ (EventBus.clear s).counters = s.counters
      ∧ (EventBus.clear s).recorded = s.recorded
      ∧ (∀ T, (EventBus.clear s).subscribers T = [])
      ∧ (∀ T p, EventBus.publish T p (EventBus.clear s) = EventBus.clear s)
      ∧ ∀ env, ∀ tk ∈ s.pending,
          (tk.topic, tk.hid) ∈ (gatherAll env (EventBus.clear s)).completed := by
  refine ⟨rfl, rfl, rfl, rfl, fun T => rfl, ?_, ?_⟩
  · intro T p
    unfold EventBus.publish EventBus.clear
    simp
  · intro env tk htk
    exact gatherAll_mem_completed env _ tk htk

theorem subscribe_mem (T : String) (h : Nat) (s : SysState) :
    h ∈ (EventBus.subscribe T h s).subscribers T := by
  unfold EventBus.subscribe
  by_cases hs : h ∈ s.subscribers T <;> simp [hs]

/-- C5: subscribe idempotence (dedup). Subscribing the same handler to the
same topic twice leaves the bus in exactly the state of subscribing once;
a newly subscribed handler appears once in the topic's list, and a publish
after the double subscription schedules exactly one more invocation of it
than were already pending. -/
theorem subscribe_idempotent (s : SysState) (T : String) (h : Nat) :
    EventBus.subscribe T h (EventBus.subscribe T h s) = EventBus.subscribe T h s
      ∧ (h ∉ s.subscribers T →
          ((EventBus.subscribe T h s).subscribers T).count h = 1)
      ∧ (h ∉ s.subscribers T → ∀ p : EventPayload,
          (EventBus.publish T p
              (EventBus.subscribe T h (EventBus.subscribe T h s))).pending.countP
              (fun tk => tk.hid == h)
            = s.pending.countP (fun tk => tk.hid == h) + 1) := by
  have hdup : EventBus.subscribe T h (EventBus.subscribe T h s)
      = EventBus.subscribe T h s := by
    conv_lhs => rw [EventBus.subscribe]
    rw [if_pos (subscribe_mem T h s)]
  have hcount : h ∉ s.subscribers T →
      ((EventBus.subscribe T h s).subscribers T).count h = 1 := by
    intro hns
    unfold EventBus.subscribe
    rw [if_neg hns]
    simp [List.count_append, List.count_eq_zero.mpr hns]
  refine ⟨hdup, hcount, ?_⟩
  intro hns p
  rw [hdup, publish_pending, List.countP_append, subscribe_pending]
  have hmap : (((EventBus.subscribe T h s).subscribers T).map
        (fun h' => (⟨T, h', p⟩ : BusTask))).countP (fun tk => tk.hid == h)
      = ((EventBus.subscribe T h s).subscribers T).count h := by
    rw [List.countP_map]
    rfl
  rw [hmap, hcount hns]

/-! ## Unsubscription: nothing for the removed handler is ever scheduled -/

/-- "No pending task would invoke handler `h` on topic `T`." -/
def noTaskFor (T : String) (h : Nat) (l : List BusTask) : Prop :=
  ∀ tk ∈ l, ¬(tk.topic = T ∧ tk.hid = h)

theorem publish_noTaskFor (T : String) (h : Nat) (t : String) (p : EventPayload)
    (s : SysState) (hs : h ∉ s.subscribers T) (hp : noTaskFor T h s.pending) :
    noTaskFor T h (EventBus.publish t p s).pending := by
  rw [noTaskFor, publish_pending]
  intro tk htk
  rcases List.mem_append.mp htk with hl | hr
  · exact hp tk hl
  · rcases List.mem_map.mp hr with ⟨h', hh', rfl⟩
    rintro ⟨hT, hh⟩
    simp only at hT hh
    subst hT; subst hh
    exact hs hh'

theorem execEffects_noTaskFor (T : String) (h : Nat) (effs : List Effect)
    (r : EventPayload) (s : SysState)
    (hs : h ∉ s.subscribers T) (hp : noTaskFor T h s.pending) :
    noTaskFor T h ((execEffects effs r s).1).pending := by
  induction effs generalizing s with
  | nil => exact hp
  | cons e rest ih =>
      cases e with
      | raiseExc => exact hp
      | incr c => exact ih _ hs hp
      | record => exact ih _ hs hp
      | publishE t p =>
          refine ih (EventBus.publish t p s) ?_ (publish_noTaskFor T h t p s hs hp)
          rw [publish_subscribers]
          exact hs

theorem runTask_noTaskFor (env : HandlerEnv) (T : String) (h : Nat) (t : BusTask)
    (s : SysState) (hs : h ∉ s.subscribers T) (hp : noTaskFor T h s.pending) :
    noTaskFor T h (runTask env t s).pending := by
  unfold runTask safeDispatch
  simpa [noTaskFor] using execEffects_noTaskFor T h _ _ s hs hp

theorem runTasks_noTaskFor (env : HandlerEnv) (T : String) (h : Nat)
    (l : List BusTask) (s : SysState)
    (hs : h ∉ s.subscribers T) (hp : noTaskFor T h s.pending) :
    noTaskFor T h (runTasks env l s).pending := by
  induction l generalizing s with
  | nil => exact hp
  | cons t rest ih =>
      show noTaskFor T h (runTasks env rest (runTask env t s)).pending
      refine ih (runTask env t s) ?_ (runTask_noTaskFor env T h t s hs hp)
      rw [runTask_subscribers]
      exact hs

theorem gatherAll_noTaskFor (env : HandlerEnv) (T : String) (h : Nat)
    (s : SysState) (hs : h ∉ s.subscribers T) :
    noTaskFor T h (gatherAll env s).pending := by
  rw [gatherAll_eq_runTasks]
  exact runTasks_noTaskFor env T h s.pending _ hs (fun tk htk => absurd htk (List.not_mem_nil _))

theorem subscribe_completed (T : String) (h : Nat) (s : SysState) :
    (EventBus.subscribe T h s).completed = s.completed := by
  unfold EventBus.subscribe
  by_cases hs : h ∈ s.subscribers T <;> simp [hs]

theorem unsubscribe_completed (T : String) (h : Nat) (s : SysState) :
    (EventBus.unsubscribe T h s).completed = s.completed := by
  unfold EventBus.unsubscribe
  by_cases hs : h ∈ s.subscribers T <;> simp [hs]

theorem unsubscribe_pending (T : String) (h : Nat) (s : SysState) :
    (EventBus.unsubscribe T h s).pending = s.pending := by
  unfold EventBus.unsubscribe
  by_cases hs : h ∈ s.subscribers T <;> simp [hs]

theorem applyOp_not_subscribed (env : HandlerEnv) (op : BusOp) (T : String) (h : Nat)
    (s : SysState) (hop : op ≠ BusOp.sub T h) (hs : h ∉ s.subscribers T) :
    h ∉ (applyOp env op s).subscribers T := by
  cases op with
  | sub t h' =>
      show h ∉ (EventBus.subscribe t h' s).subscribers T
      unfold EventBus.subscribe
      by_cases hmem : h' ∈ s.subscribers t
      · simpa [hmem] using hs
      · simp only [hmem, if_neg, not_false_iff, ite_false]
        by_cases ht : T = t
        · subst ht
          simp only [if_pos rfl]
          intro hcon
          rcases List.mem_append.mp hcon with hl | hr
          · exact hs hl
          · have hhh : h = h' := by simpa using hr
            exact hop (by rw [hhh])
        · simpa [ht] using hs
  | unsub t h' =>
      show h ∉ (EventBus.unsubscribe t h' s).subscribers T
      unfold EventBus.unsubscribe
      by_cases hmem : h' ∈ s.subscribers t
      · simp only [hmem, if_pos]
        by_cases ht : T = t
        · subst ht
          simp only [if_pos rfl]
          exact fun hcon => hs (List.mem_of_mem_erase hcon)
        · simpa [ht] using hs
      · simpa [hmem] using hs
  | pub t p =>
      show h ∉ (EventBus.publish t p s).subscribers T
      rw [publish_subscribers]
      exact hs
  | drain =>
      show h ∉ (gatherAll env s).subscribers T
      rw [gatherAll_subscribers]
      exact hs

theorem applyOp_noTaskFor (env : HandlerEnv) (op : BusOp) (T : String) (h : Nat)
    (s : SysState) (hs : h ∉ s.subscribers T) (hp : noTaskFor T h s.pending) :
    noTaskFor T h (applyOp env op s).pending := by
  cases op with
  | sub t h' => simpa [applyOp, noTaskFor, subscribe_pending] using hp
  | unsub t h' => simpa [applyOp, noTaskFor, unsubscribe_pending] using hp
  | pub t p => exact publish_noTaskFor T h t p s hs hp
  | drain => exact gatherAll_noTaskFor env T h s hs

theorem applyOp_completed_frame (env : HandlerEnv) (op : BusOp) (T : String) (h : Nat)
    (s : SysState) (hp : noTaskFor T h s.pending) (hc : (T, h) ∉ s.completed) :
    (T, h) ∉ (applyOp env op s).completed := by
  cases op with
  | sub t h' => simpa [applyOp, subscribe_completed] using hc
  | unsub t h' => simpa [applyOp, unsubscribe_completed] using hc
  | pub t p =>
      show (T, h) ∉ (EventBus.publish t p s).completed
      rw [publish_completed]
      exact hc
  | drain =>
      show (T, h) ∉ (gatherAll env s).completed
      rw [gatherAll_completed]
      intro hcon
      rcases List.mem_append.mp hcon with hl | hr
      · exact hc hl
      · rcases List.mem_map.mp hr with ⟨tk, htk, heq⟩
        refine hp tk htk ?_
        exact ⟨congrArg Prod.fst heq, congrArg Prod.snd heq⟩

theorem applyOps_invariants (env : HandlerEnv) (ops : List BusOp) (T : String)
    (h : Nat) (s : SysState)
    (hops : ∀ op ∈ ops, op ≠ BusOp.sub T h)
    (hs : h ∉ s.subscribers T) (hp : noTaskFor T h s.pending) :
    (h ∉ (applyOps env ops s).subscribers T)
      ∧ noTaskFor T h (applyOps env ops s).pending
      ∧ ((T, h) ∉ s.completed → (T, h) ∉ (applyOps env ops s).completed) := by
  induction ops generalizing s with
  | nil => exact ⟨hs, hp, fun hc => hc⟩
  | cons op rest ih =>
      have hop : op ≠ BusOp.sub T h := hops op (List.mem_cons_self op rest)
      have hops' : ∀ o ∈ rest, o ≠ BusOp.sub T h :=
        fun o ho => hops o (List.mem_cons_of_mem op ho)
      have hs' := applyOp_not_subscribed env op T h s hop hs
      have hp' := applyOp_noTaskFor env op T h s hs hp
      obtain ⟨i1, i2, i3⟩ := ih (applyOp env op s) hops' hs' hp'
      refine ⟨i1, i2, fun hc => i3 (applyOp_completed_frame env op T h s hp hc)⟩

/-- C6: unsubscribe. After `unsubscribe(T, h)` the handler is no longer in
the topic's list, and along any further sequence of bus operations that
does not re-subscribe it, no publish ever schedules a task for it on `T`
and it is never invoked on `T` again; if it was not subscribed, the call
is a no-op returning the state unchanged (no error). -/
theorem unsubscribe_spec (env : HandlerEnv) (s : SysState) (T : String) (h : Nat)
    (hnd : (s.subscribers T).Nodup) :
    h ∉ (EventBus.unsubscribe T h s).subscribers T
      ∧ (h ∉ s.subscribers T → EventBus.unsubscribe T h s = s)
      ∧ ∀ ops, (∀ op ∈ ops, op ≠ BusOp.sub T h) →
          noTaskFor T h s.pending →
          (noTaskFor T h (applyOps env ops (EventBus.unsubscribe T h s)).pending
            ∧ ((T, h) ∉ s.completed →
                (T, h) ∉ (applyOps env ops (EventBus.unsubscribe T h s)).completed)) := by
  have hnot : h ∉ (EventBus.unsubscribe T h s).subscribers T := by
    unfold EventBus.unsubscribe
    by_cases hmem : h ∈ s.subscribers T
    · simpa [hmem] using hnd.not_mem_erase
    · simp [hmem]
  refine ⟨hnot, ?_, ?_⟩
  · intro hns
    unfold EventBus.unsubscribe
    rw [if_neg hns]
  · intro ops hops hp
    have hp' : noTaskFor T h (EventBus.unsubscribe T h s).pending := by
      rw [unsubscribe_pending]
      exact hp
    obtain ⟨_, i2, i3⟩ := applyOps_invariants env ops T h _ hops hnot hp'
    exact ⟨i2, fun hc => i3 (by rw [unsubscribe_completed]; exact hc)⟩

/-! ## Extraction-stage lemmas -/

theorem extract_empty_no_provider (env : LLMEnv) (h : env.providerAvailable = false) :
    extract_entities env = [] := by
  unfold extract_entities
  rw [if_pos h]

theorem extract_empty_render_error (env : LLMEnv) (e : String)
    (h : env.renderResult = Except.error e) : extract_entities env = [] := by
  unfold extract_entities
  rw [h]
  simp

theorem extract_empty_llm_error (env : LLMEnv) (e : String)
    (h : env.llmResult = Except.error e) : extract_entities env = [] := by
  unfold extract_entities
  rw [h]
  cases hr : env.renderResult <;> simp [hr]

theorem extract_empty_llm_not_list (env : LLMEnv) (v : Val)
    (h : env.llmResult = Except.ok v) (hv : ∀ l, v ≠ Val.list l) :
    extract_entities env = [] := by
  unfold extract_entities
  rw [h]
  cases hr : env.renderResult with
  | error e => simp [hr]
  | ok pr =>
      cases v with
      | list l => exact absurd rfl (hv l)
      | str a => simp [hr]
      | int a => simp [hr]
      | bool a => simp [hr]
      | none => simp [hr]
      | map a => simp [hr]

theorem extract_eq_normalize (env : LLMEnv) (l : List Val)
    (hpv : env.providerAvailable = true) (pr : String)
    (hr : env.renderResult = Except.ok pr)
    (h : env.llmResult = Except.ok (Val.list l)) :
    extract_entities env = normalizeList l := by
  unfold extract_entities
  rw [h, hr, hpv]
  simp

theorem handle_none_of_extract_empty (env : LLMEnv) (doc_id : Val) (content : String)
    (h : extract_entities env = []) :
    handle_data_ingested env doc_id content = Option.none := by
  unfold handle_data_ingested
  by_cases hc : pyStrip content = "" <;> simp [hc, h]

theorem handle_some_inv (env : LLMEnv) (doc_id : Val) (content : String)
    (out : String × EventPayload)
    (h : handle_data_ingested env doc_id content = some out) :
    pyStrip content ≠ ""
      ∧ out = (TOPIC_ENTITY_EXTRACTED,
               [("doc_id", doc_id), ("entities", Val.list (extract_entities env))])
      ∧ extract_entities env ≠ [] := by
  unfold handle_data_ingested at h
  by_cases hc : pyStrip content = ""
  · rw [if_pos hc] at h
    exact absurd h (by simp)
  · rw [if_neg hc] at h
    simp only [] at h
    by_cases he : (extract_entities env).isEmpty = true
    · rw [if_pos he] at h
      exact absurd h (by simp)
    · rw [if_neg he] at h
      have hne : extract_entities env ≠ [] := by
        simpa [List.isEmpty_iff] using he
      exact ⟨hc, by injection h with h'; rw [← h'], hne⟩

/-- C8: the extraction stage withholds its output on every failure path
(blank content, no LLM provider, prompt-rendering error, LLM exception,
`None` or non-list LLM output, zero usable entities) and never raises (it
is a total function into `Option`); on success it publishes exactly one
`entity.extracted` event carrying the input's `doc_id` and the extracted
entity list. -/
theorem handle_data_ingested_spec (env : LLMEnv) (doc_id : Val) (content : String) :
    (pyStrip content = "" → handle_data_ingested env doc_id content = Option.none)
      ∧ (env.providerAvailable = false →
          handle_data_ingested env doc_id content = Option.none)
      ∧ (∀ e, env.renderResult = Except.error e →
          handle_data_ingested env doc_id content = Option.none)
      ∧ (∀ e, env.llmResult = Except.error e →
          handle_data_ingested env doc_id content = Option.none)
      ∧ (env.llmResult = Except.ok Val.none →
          handle_data_ingested env doc_id content = Option.none)
      ∧ (∀ v, env.llmResult = Except.ok v → (∀ l, v ≠ Val.list l) →
          handle_data_ingested env doc_id content = Option.none)
      ∧ (∀ l, env.llmResult = Except.ok (Val.list l) → normalizeList l = [] →
          handle_data_ingested env doc_id content = Option.none)
      ∧ (∀ out, handle_data_ingested env doc_id content = some out →
          pyStrip content ≠ ""
            ∧ out = (TOPIC_ENTITY_EXTRACTED,
                     [("doc_id", doc_id),
                      ("entities", Val.list (extract_entities env))])
            ∧ extract_entities env ≠ []) := by
  refine ⟨?_, ?_, ?_, ?_, ?_, ?_, ?_, ?_⟩
  · intro hc
    unfold handle_data_ingested
    rw [if_pos hc]
  · intro h
    exact handle_none_of_extract_empty env doc_id content (extract_empty_no_provider env h)
  · intro e h
    exact handle_none_of_extract_empty env doc_id content (extract_empty_render_error env e h)
  · intro e h
    exact handle_none_of_extract_empty env doc_id content (extract_empty_llm_error env e h)
  · intro h
    exact handle_none_of_extract_empty env doc_id content
      (extract_empty_llm_not_list env Val.none h (fun l => by simp))
  · intro v h hv
    exact handle_none_of_extract_empty env doc_id content
      (extract_empty_llm_not_list env v h hv)
  · intro l h hnorm
    refine handle_none_of_extract_empty env doc_id content ?_
    unfold extract_entities
    rw [h]
    cases hr : env.renderResult <;> simp [hr, hnorm]
  · intro out h
    exact handle_some_inv env doc_id content out h

/-- Every value produced by the normalisation step is a three-entry map
with an upper-cased stringified type, a stripped stringified text, and a
map of attributes. -/
theorem normalizeEntity_shape (e v : Val) (h : normalizeEntity e = some v) :
    ∃ ty tx : Val, ∃ attrs : List (String × Val),
      v = Val.map [("type", Val.str (pyUpper (pyStr ty))),
                   ("text", Val.str (pyStrip (pyStr tx))),
                   ("attributes", Val.map attrs)] := by
  cases e with
  | map kvs =>
      simp only [normalizeEntity] at h
      cases hty : lookupKey kvs "type" with
      | none => rw [hty] at h; cases htx : lookupKey kvs "text" <;> simp [htx] at h
      | some ty =>
          cases htx : lookupKey kvs "text" with
          | none => rw [hty, htx] at h; simp at h
          | some tx =>
              rw [hty, htx] at h
              simp only [Option.some.injEq] at h
              cases hattr : lookupKey kvs "attributes" with
              | none =>
                  rw [hattr] at h
                  exact ⟨ty, tx, [], h.symm⟩
              | some av =>
                  rw [hattr] at h
                  cases av with
                  | map m => exact ⟨ty, tx, m, h.symm⟩
                  | str a => exact ⟨ty, tx, [], h.symm⟩
                  | int a => exact ⟨ty, tx, [], h.symm⟩
                  | bool a => exact ⟨ty, tx, [], h.symm⟩
                  | none => exact ⟨ty, tx, [], h.symm⟩
                  | list a => exact ⟨ty, tx, [], h.symm⟩
  | str a => exact absurd h (by simp [normalizeEntity])
  | int a => exact absurd h (by simp [normalizeEntity])
  | bool a => exact absurd h (by simp [normalizeEntity])
  | none => exact absurd h (by simp [normalizeEntity])
  | list a => exact absurd h (by simp [normalizeEntity])

theorem extract_entities_mem_shape (env : LLMEnv) (v : Val)
    (h : v ∈ extract_entities env) :
    ∃ ty tx : Val, ∃ attrs : List (String × Val),
      v = Val.map [("type", Val.str (pyUpper (pyStr ty))),
                   ("text", Val.str (pyStrip (pyStr tx))),
                   ("attributes", Val.map attrs)] := by
  unfold extract_entities at h
  by_cases hpv : env.providerAvailable = false
  · rw [if_pos hpv] at h
    exact absurd h (List.not_mem_nil v)
  · rw [if_neg hpv] at h
    cases hr : env.renderResult with
    | error e => rw [hr] at h; exact absurd h (List.not_mem_nil v)
    | ok pr =>
        rw [hr] at h
        cases hl : env.llmResult with
        | error e => rw [hl] at h; exact absurd h (List.not_mem_nil v)
        | ok lv =>
            rw [hl] at h
            cases lv with
            | list l =>
                rcases List.mem_filterMap.mp h with ⟨e, _, hnorm⟩
                exact normalizeEntity_shape e v hnorm
            | str a => exact absurd h (List.not_mem_nil v)
            | int a => exact absurd h (List.not_mem_nil v)
            | bool a => exact absurd h (List.not_mem_nil v)
            | none => exact absurd h (List.not_mem_nil v)
            | map a => exact absurd h (List.not_mem_nil v)

theorem extract_nonempty_eq (env : LLMEnv) (l : List Val)
    (hne : extract_entities env ≠ [])
    (hl : env.llmResult = Except.ok (Val.list l)) :
    extract_entities env = normalizeList l := by
  by_cases hpv : env.providerAvailable = false
  · exact absurd (extract_empty_no_provider env hpv) hne
  · have hpv' : env.providerAvailable = true := by
      revert hpv; cases env.providerAvailable <;> simp
    cases hr : env.renderResult with
    | error e => exact absurd (extract_empty_render_error env e hr) hne
    | ok pr => exact extract_eq_normalize env l hpv' pr hr hl

/-- C10: implicit output-normalisation invariant of the extraction stage.
Every entity inside a published `entity.extracted` event is a map with
exactly the keys `"type"` (an upper-cased stringification), `"text"` (a
whitespace-stripped stringification) and `"attributes"` (a map, replaced
by the empty map when the LLM's attributes value is not a map); and any
LLM-returned element that is not a map, or lacks a `"type"` or `"text"`
key, is dropped by the normalisation rather than published. -/
theorem entity_extracted_normalized (env : LLMEnv) (doc_id : Val) (content : String)
    (out : String × EventPayload)
    (h : handle_data_ingested env doc_id content = some out) :
    (∃ ents : List Val,
        lookupKey out.2 "entities" = some (Val.list ents)
          ∧ (∀ l, env.llmResult = Except.ok (Val.list l) → ents = normalizeList l)
          ∧ ∀ v ∈ ents, ∃ ty tx : Val, ∃ attrs : List (String × Val),
              v = Val.map [("type", Val.str (pyUpper (pyStr ty))),
                           ("text", Val.str (pyStrip (pyStr tx))),
                           ("attributes", Val.map attrs)])
      ∧ (∀ e : Val, (∀ kvs, e ≠ Val.map kvs) → normalizeEntity e = Option.none)
      ∧ (∀ kvs, lookupKey kvs "type" = Option.none →
          normalizeEntity (Val.map kvs) = Option.none)
      ∧ (∀ kvs, lookupKey kvs "text" = Option.none →
          normalizeEntity (Val.map kvs) = Option.none)
      ∧ (∀ kvs, ∀ ty tx : Val,
          lookupKey kvs "type" = some ty → lookupKey kvs "text" = some tx →
          (∀ m, lookupKey kvs "attributes" ≠ some (Val.map m)) →
          normalizeEntity (Val.map kvs)
            = some (Val.map [("type", Val.str (pyUpper (pyStr ty))),
                             ("text", Val.str (pyStrip (pyStr tx))),
                             ("attributes", Val.map [])])) := by
  obtain ⟨hc, hout, hne⟩ := handle_some_inv env doc_id content out h
  refine ⟨⟨extract_entities env, ?_, ?_, ?_⟩, ?_, ?_, ?_, ?_⟩
  · rw [hout]
    simp [lookupKey]
  · intro l hl
    exact extract_nonempty_eq env l hne hl
  · intro v hv
    exact extract_entities_mem_shape env v hv
  · intro e he
    cases e with
    | map kvs => exact absurd rfl (he kvs)
    | str a => rfl
    | int a => rfl
    | bool a => rfl
    | none => rfl
    | list a => rfl
  · intro kvs hty
    cases htx : lookupKey kvs "text" <;> simp [normalizeEntity, hty, htx]
  · intro kvs htx
    cases hty : lookupKey kvs "type" <;> simp [normalizeEntity, hty, htx]
  · intro kvs ty tx hty htx hnm
    simp only [normalizeEntity, hty, htx]
    cases hattr : lookupKey kvs "attributes" with
    | none => rfl
    | some av =>
        cases av with
        | map m => exact absurd hattr (hnm m)
        | str a => rfl
        | int a => rfl
        | bool a => rfl
        | none => rfl
        | list a => rfl

/-! ## Concrete instances used by the witnesses -/

/-- A bus state with no subscriptions and nothing pending. -/
def emptyState : SysState :=
  { subscribers := fun _ => []
    pending := []
    completed := []
    counters := fun _ => 0
    recorded := [] }

/-- Handler 0 always raises; every other handler increments counter 0. -/
def envC1 : HandlerEnv :=
  fun h _ => if h = 0 then [Effect.raiseExc] else [Effect.incr 0]

/-- Handlers 0 and 1 subscribed to topic `"x"`. -/
def stateC1 : SysState :=
  { emptyState with subscribers := fun t => if t = "x" then [0, 1] else [] }

/-- Handler 1 republishes to topic `"b"`; every other handler does nothing. -/
def envC4 : HandlerEnv :=
  fun h _ => if h = 1 then [Effect.publishE "b" []] else []

/-- Handler 1 subscribed to `"a"`, handler 2 subscribed to `"b"`. -/
def stateC4 : SysState :=
  { emptyState with
      subscribers := fun t => if t = "a" then [1] else if t = "b" then [2] else [] }

/-- Handler 0 subscribed to topic `"x"` only. -/
def stateC6 : SysState :=
  { emptyState with subscribers := fun t => if t = "x" then [0] else [] }

/-- An in-flight task for handler 0 on topic `"x"`, no subscriptions. -/
def stateC9 : SysState :=
  { emptyState with pending := [⟨"x", 0, []⟩] }

/-- Extraction-helper outcome with no available LLM provider. -/
def envFail : LLMEnv :=
  { providerAvailable := false
    renderResult := Except.ok "prompt"
    llmResult := Except.error "unreachable" }

/-- Extraction-helper outcome where the LLM returned one raw entity. -/
def envOk : LLMEnv :=
  { providerAvailable := true
    renderResult := Except.ok "prompt"
    llmResult := Except.ok (Val.list
      [Val.map [("type", Val.str "person"), ("text", Val.str " Ada ")]]) }

/-! ## Witnesses -/

theorem publish_fault_isolation_witness :
    (gatherAll envC1 (EventBus.publish "x" [] stateC1)).counters 0
        = stateC1.counters 0 + 1
      ∧ ("x", 0) ∈ (gatherAll envC1 (EventBus.publish "x" [] stateC1)).completed
      ∧ ("x", 1) ∈ (gatherAll envC1 (EventBus.publish "x" [] stateC1)).completed
      ∧ (gatherAll envC1 (EventBus.publish "x" [] stateC1)).pending = [] :=
  publish_fault_isolation envC1 stateC1 "x" [] 0 1 0 (by simp [stateC1, emptyState])
    rfl (by simp [envC1]) (by simp [envC1])

theorem publish_fanout_snapshot_witness :
    (EventBus.publish "x" [] stateC1).pending.length
        = stateC1.pending.length + (stateC1.subscribers "x").length
      ∧ (⟨"x", 0, []⟩ : BusTask).payload = [] :=
  ⟨(publish_fanout_snapshot envC1 stateC1 "x" []).2.1,
   ((publish_fanout_snapshot envC1 stateC1 "x" []).2.2.1 ⟨"x", 0, []⟩
      (by simp [stateC1, emptyState])).1⟩

theorem wait_until_idle_timeout_witness :
    (wait_until_idle envC1 0 emptyState).1 = true :=
  ((wait_until_idle_timeout_spec envC1 0 emptyState).1).mpr
    ⟨0, Nat.le_refl 0, rfl⟩

theorem wait_until_idle_cascade_witness :
    ("a", 1) ∈ (wait_until_idle envC4 2 (EventBus.publish "a" [] stateC4)).2.completed
      ∧ ("b", 2) ∈ (wait_until_idle envC4 2 (EventBus.publish "a" [] stateC4)).2.completed :=
  wait_until_idle_cascade envC4 stateC4 "a" "b" 1 2 [] []
    (by simp [stateC4, emptyState]) (by simp [stateC4, emptyState])
    (by simp [envC4, beforeRaise]) 2 (by decide)

theorem subscribe_idempotent_witness :
    ((EventBus.subscribe "x" 0 emptyState).subscribers "x").count 0 = 1
      ∧ (EventBus.publish "x" []
           (EventBus.subscribe "x" 0 (EventBus.subscribe "x" 0 emptyState))).pending.countP
           (fun tk => tk.hid == 0)
        = emptyState.pending.countP (fun tk => tk.hid == 0) + 1 :=
  ⟨(subscribe_idempotent emptyState "x" 0).2.1 (by simp [emptyState]),
   (subscribe_idempotent emptyState "x" 0).2.2 (by simp [emptyState]) []⟩

theorem unsubscribe_spec_witness :
    0 ∉ (EventBus.unsubscribe "x" 0 stateC6).subscribers "x"
      ∧ noTaskFor "x" 0
          (applyOps envC1 [BusOp.pub "x" []]
            (EventBus.unsubscribe "x" 0 stateC6)).pending :=
  ⟨(unsubscribe_spec envC1 stateC6 "x" 0 (by simp [stateC6, emptyState])).1,
   ((unsubscribe_spec envC1 stateC6 "x" 0 (by simp [stateC6, emptyState])).2.2
      [BusOp.pub "x" []] (by simp) (by simp [stateC6, emptyState, noTaskFor])).1⟩

theorem publish_no_subscribers_witness :
    EventBus.publish "unused.topic" [] emptyState = emptyState :=
  (publish_no_subscribers emptyState "unused.topic" [] rfl).1

theorem handle_data_ingested_spec_witness :
    handle_data_ingested envFail (Val.str "d1") "hello" = Option.none :=
  (handle_data_ingested_spec envFail (Val.str "d1") "hello").2.1 rfl

theorem clear_frame_witness :
    ("x", 0) ∈ (gatherAll envC1 (EventBus.clear stateC9)).completed :=
  (clear_frame stateC9).2.2.2.2.2.2 envC1 ⟨"x", 0, []⟩
    (by simp [stateC9, emptyState])

theorem entity_extracted_normalized_witness :
    normalizeEntity (Val.str "noise") = Option.none :=
  (entity_extracted_normalized envOk (Val.str "d1") "hello"
      (TOPIC_ENTITY_EXTRACTED,
       [("doc_id", Val.str "d1"), ("entities", Val.list (extract_entities envOk))])
      rfl).2.1 (Val.str "noise") (fun _ h => Val.noConfusion h)
